import Mathlib

/-!
Verification of the CRAS (Contamination Risk Analysis & Alert System)
downstream contamination propagation engine against its specification.

The repository's visible source is the presentation layer (React map,
analysis panel, results panel, export service) and infrastructure scripts;
the backend analysis engine (graph builder, traversal, decay model,
endpoint resolver, classifier) lives behind the `POST
/contamination/analyze` endpoint and is not part of the visible source.
Definitions for the engine are therefore modelled from the specification,
as marked in each doc comment; the frontend code (App state,
MapComponent's self-match guard, the ResultsPanel most-critical
computation, the export row shape) is embedded directly from the source
files.

Numeric values (kilometres, percentages, hours) are modelled as
rationals; the decay model, whose distance exponent is a real number, is
modelled over the reals.
-/

namespace CRAS

/-! ## Data model -/

/-- Risk tier of a classified endpoint. -/
inductive RiskLevel
  | High
  | Moderate
  | Low
  deriving DecidableEq

/-- Endpoint category, a closed enumeration (spec section 3). -/
inductive EndpointType
  | hospital
  | school
  | farmland
  | residential
  | industrial
  | other
  deriving DecidableEq

/-- A latitude/longitude coordinate pair. -/
structure LatLng where
  lat : ℚ
  lng : ℚ
  deriving DecidableEq

/-- A directed waterway segment: `source` flows to `target` over
`length_km` kilometres (spec section 3, NetworkEdge; the stored length is
converted to kilometres for the traversal). -/
structure Edge where
  source : ℕ
  target : ℕ
  length_km : ℚ
  deriving DecidableEq

/-- The hydrological network: a flat list of directed edges
(spec section 3, NetworkGraph). -/
structure Graph where
  edges : List Edge
  deriving DecidableEq

/-- A point-of-interest (spec section 3, Endpoint): its unique identifier,
its category, the network node it is associated with (via intake linkage
or nearest-edge snap), and its coordinate.  Identifiers are modelled as
naturals. -/
structure Endpoint where
  endpoint_id : ℕ
  endpoint_type : EndpointType
  node : ℕ
  coord : LatLng
  deriving DecidableEq

/-- The three ordered percentage cut points of an analysis request. -/
structure Thresholds where
  high : ℚ
  moderate : ℚ
  low : ℚ
  deriving DecidableEq

/-- The configurable part of an analysis request (spec sections 3 and 6). -/
structure Config where
  dispersion_rate : ℚ
  analysis_radius_km : ℚ
  thresholds : Thresholds
  deriving DecidableEq

/-- One row of final engine output (spec section 3, RiskRecord). -/
structure RiskRecord where
  endpoint_id : ℕ
  endpoint_type : EndpointType
  risk_level : RiskLevel
  concentration_pct : ℚ
  distance_km : ℚ
  deriving DecidableEq

/-- The typed failures of the engine (spec section 7). -/
inductive AnalysisError
  | invalidConfiguration
  deriving DecidableEq

/-! ## Decay model -/

/-- Modelled from the spec: the backend decay model (section 4.5) is not in
the visible source.  Compound multiplicative decay:
concentration = 100 * (1 - dispersion_rate) ^ distance_km, a percentage. -/
noncomputable def concentration_at (distance_km dispersion_rate : ℝ) : ℝ :=
  100 * (1 - dispersion_rate) ^ distance_km

/-! ## Downstream traversal engine -/

/-- Modelled from the spec: the adjacency of a node is the list of its
outgoing edges only, the edges whose source_node equals the node
(spec sections 3 and 4.4); no reverse edge is ever added. -/
def outgoing (g : Graph) (n : ℕ) : List Edge :=
  g.edges.filter (fun e => e.source == n)

/-- Extract a minimum-distance entry from the frontier, modelling the
priority-queue extraction of the Dijkstra-style traversal. -/
def extractMin : List (ℕ × ℚ) → Option ((ℕ × ℚ) × List (ℕ × ℚ))
  | [] => none
  | x :: xs =>
    match extractMin xs with
    | none => some (x, [])
    | some (m, rest) => if x.2 ≤ m.2 then some (x, xs) else some (m, x :: rest)

/-- Modelled from the spec: the worklist loop of the downstream traversal
engine (section 4.4), not in the visible source.  Repeatedly extracts the
closest frontier entry; a node already finalized is skipped (finalize-once
visited policy), otherwise it is finalized at its cumulative distance and
its outgoing edges are expanded, enqueuing a successor only when the new
cumulative distance still lies within the radius `R`. -/
def traverseAux (g : Graph) (R : ℚ) :
    ℕ → List (ℕ × ℚ) → List (ℕ × ℚ) → List (ℕ × ℚ)
  | 0, visited, _ => visited
  | fuel + 1, visited, frontier =>
    match extractMin frontier with
    | none => visited
    | some (entry, rest) =>
      if visited.any (fun p => p.1 == entry.1) then
        traverseAux g R fuel visited rest
      else
        traverseAux g R fuel (entry :: visited)
          (rest ++ (outgoing g entry.1).filterMap (fun e =>
            if entry.2 + e.length_km ≤ R then some (e.target, entry.2 + e.length_km)
            else none))

/-- Modelled from the spec: traverse(start_node, graph, max_distance_km)
(section 4.4) — the distance-bounded, flow-following expansion from the
start node, producing the mapping from reachable node to cumulative
downstream distance.  The fuel is a crude upper bound on the number of
worklist steps; the safety properties proved below hold for every fuel. -/
def traverse (g : Graph) (start : ℕ) (R : ℚ) : List (ℕ × ℚ) :=
  traverseAux g R ((g.edges.length + 2) * (g.edges.length + 2)) [] [(start, 0)]

/-- A flow-following (downstream) path in the graph from one node to
another of the given total length: the reflexive-transitive closure of
single-edge steps taken from source to target only. -/
inductive PathFrom (g : Graph) : ℕ → ℕ → ℚ → Prop
  | refl (n : ℕ) : PathFrom g n n 0
  | step {a b : ℕ} {d : ℚ} (e : Edge) (hp : PathFrom g a b d) (he : e ∈ g.edges)
      (hs : e.source = b) : PathFrom g a e.target (d + e.length_km)

/-! ## Classifier, resolver and the analyze pipeline -/

/-- Modelled from the spec: the backend risk classifier (section 4.7) is not
in the visible source.  Closed-below-inclusive comparison against the three
thresholds; a concentration below the low threshold yields no tier at all
(the endpoint is dropped from output). -/
def classify (c : ℚ) (t : Thresholds) : Option RiskLevel :=
  if t.high ≤ c then some RiskLevel.High
  else if t.moderate ≤ c then some RiskLevel.Moderate
  else if t.low ≤ c then some RiskLevel.Low
  else none

/-- Rank of a risk tier for the final ordering: High before Moderate
before Low. -/
def tierRank : RiskLevel → ℕ
  | RiskLevel.High => 0
  | RiskLevel.Moderate => 1
  | RiskLevel.Low => 2

/-- Sort key of a record for the final ordering (spec section 4.7): risk
tier first, then descending concentration (encoded by negation), ties
broken by endpoint id. -/
def recKey (r : RiskRecord) : Lex (ℕ × Lex (ℚ × ℕ)) :=
  toLex (tierRank r.risk_level, toLex (-r.concentration_pct, r.endpoint_id))

/-- Boolean comparison on records induced by the sort key. -/
def recLE (a b : RiskRecord) : Bool := decide (recKey a ≤ recKey b)

/-- Modelled from the spec: the final ordering of classified records
(section 4.7), not in the visible source. -/
def rankRecords (l : List RiskRecord) : List RiskRecord := l.mergeSort recLE

/-- Look up a node's cumulative distance in a traversal result. -/
def lookupDist (tr : List (ℕ × ℚ)) (n : ℕ) : Option ℚ :=
  (tr.find? (fun p => p.1 == n)).map (fun p => p.2)

/-- Modelled from the spec: the endpoint resolver (section 4.6), not in the
visible source.  An endpoint located at the contamination origin itself is
excluded (self-match guard); otherwise its associated node's distance is
looked up in the traversal result, and endpoints whose node is absent are
filtered out. -/
def resolve (origin : LatLng) (endpoints : List Endpoint) (tr : List (ℕ × ℚ)) :
    List (Endpoint × ℚ) :=
  endpoints.filterMap (fun e =>
    if e.coord = origin then none
    else (lookupDist tr e.node).map (fun d => (e, d)))

/-- Modelled from the spec: classification of the resolved endpoints into
risk records (section 4.7).  The decay model `conc` maps cumulative
distance to concentration; its real-valued closed form is treated
separately, so it is a parameter here. -/
def toRecords (conc : ℚ → ℚ) (t : Thresholds) (resolved : List (Endpoint × ℚ)) :
    List RiskRecord :=
  resolved.filterMap (fun p =>
    (classify (conc p.2) t).map (fun lvl =>
      RiskRecord.mk p.1.endpoint_id p.1.endpoint_type lvl (conc p.2) p.2))

/-- Modelled from the spec: configuration validation (section 7) — the
threshold ordering high > moderate > low > 0, a dispersion rate in the
open interval (0,1) and a positive radius. -/
def validConfig (c : Config) : Bool :=
  decide (0 < c.dispersion_rate) && decide (c.dispersion_rate < 1) &&
  decide (0 < c.analysis_radius_km) &&
  decide (c.thresholds.moderate < c.thresholds.high) &&
  decide (c.thresholds.low < c.thresholds.moderate) &&
  decide (0 < c.thresholds.low)

/-- Modelled from the spec: the risk-record list of a successful analysis
(sections 4.4 to 4.7) — traverse from the snapped start node, resolve the
endpoints against the traversal result, classify and rank. -/
def riskResults (conc : ℚ → ℚ) (cfg : Config) (g : Graph) (origin : LatLng)
    (start : ℕ) (endpoints : List Endpoint) : List RiskRecord :=
  rankRecords (toRecords conc cfg.thresholds
    (resolve origin endpoints (traverse g start cfg.analysis_radius_km)))

/-- Modelled from the spec: the analyze operation (section 6).  The
configuration is validated before any traversal work; an invalid
configuration yields a typed failure and no result. -/
def analyze (conc : ℚ → ℚ) (cfg : Config) (g : Graph) (origin : LatLng)
    (start : ℕ) (endpoints : List Endpoint) :
    Except AnalysisError (List RiskRecord) :=
  if validConfig cfg then
    Except.ok (riskResults conc cfg g origin start endpoints)
  else
    Except.error AnalysisError.invalidConfiguration

/-! ## Frontend code embedded from the source -/

/-- The self-match guard of the map layer (MapComponent): true when the
endpoint lies within 0.0001 degrees of some contamination point in both
coordinates; such a result is not rendered as a risk marker. -/
def isAtContaminationPoint (contaminationPoints : List LatLng)
    (endpointLat endpointLng : ℚ) : Bool :=
  contaminationPoints.any (fun cp =>
    decide (|cp.lat - endpointLat| < 1 / 10000) &&
    decide (|cp.lng - endpointLng| < 1 / 10000))

/-- A result row as consumed by the frontend panels (the JSON shape the
analyze endpoint returns): besides the identifying fields, the numeric
model fields concentration and arrival_hours are optional, since a row of
either model variant carries only its own model's field. -/
structure PanelRecord where
  endpoint_id : String
  endpoint_type : String
  risk_level : String
  concentration : Option ℚ
  arrival_hours : Option ℚ
  distance_km : ℚ
  deriving DecidableEq

/-- ResultsPanel.getMostCritical of the concentration-model panel: the
High-tier records sorted by descending concentration (a missing
concentration falls back to 0, as in the source), first element if any. -/
def getMostCritical (results : List PanelRecord) : Option PanelRecord :=
  let highRisk := results.filter (fun r => r.risk_level == "High")
  if highRisk.length == 0 then none
  else (highRisk.mergeSort (fun a b =>
    decide (b.concentration.getD 0 ≤ a.concentration.getD 0))).head?

/-- ResultsPanel.getMostCritical of the arrival-time-model panel: the
High-tier records sorted by ascending arrival time, first element if
any. -/
def getMostCriticalArrival (results : List PanelRecord) : Option PanelRecord :=
  let highRisk := results.filter (fun r => r.risk_level == "High")
  if highRisk.length == 0 then none
  else (highRisk.mergeSort (fun a b =>
    decide (a.arrival_hours.getD 0 ≤ b.arrival_hours.getD 0))).head?

/-- The Concentration column renderer of the current results panel:
a truthy concentration is displayed as a percentage, anything else
(absent, null or zero) as the N/A placeholder, modelled as none. -/
def concentrationCell (r : PanelRecord) : Option ℚ :=
  match r.concentration with
  | some c => if c = 0 then none else some c
  | none => none

/-- The arrival-time cell of the detailed-results Excel export row
(export service): it reads result.arrival_hours and calls toFixed on it,
which throws a TypeError when the field is absent; modelled as the error
case. -/
def exportArrivalCell (r : PanelRecord) : Except String ℚ :=
  match r.arrival_hours with
  | some h => Except.ok h
  | none => Except.error "TypeError: arrival_hours is undefined"

/-- The application state relevant to contamination points (App
component). -/
structure AppState where
  contaminationPoints : List LatLng
  analysisResults : Option (List PanelRecord)
  deriving DecidableEq

/-- The UI events that touch this state (App component): a map click
adding a contamination point, an analysis completing, and the clear
action. -/
inductive AppEvent
  | contaminationAdd (p : LatLng)
  | analysisComplete (rs : List PanelRecord)
  | clearAnalysis
  deriving DecidableEq

/-- App.handleContaminationAdd: setContaminationPoints([point]) — the new
point replaces the whole list, so only one contamination point is kept at
a time. -/
def handleContaminationAdd (s : AppState) (p : LatLng) : AppState :=
  AppState.mk [p] s.analysisResults

/-- App.handleAnalysisComplete: stores the results, leaving the points
unchanged. -/
def handleAnalysisComplete (s : AppState) (rs : List PanelRecord) : AppState :=
  AppState.mk s.contaminationPoints (some rs)

/-- App.handleClearAnalysis: clears both the points and the results. -/
def handleClearAnalysis (_ : AppState) : AppState :=
  AppState.mk [] none

/-- The initial App state: no contamination points, no results. -/
def initState : AppState := AppState.mk [] none

/-- One UI step. -/
def stepApp (s : AppState) : AppEvent → AppState
  | AppEvent.contaminationAdd p => handleContaminationAdd s p
  | AppEvent.analysisComplete rs => handleAnalysisComplete s rs
  | AppEvent.clearAnalysis => handleClearAnalysis s

/-- The App state after a sequence of UI events from the initial state. -/
def runApp (evs : List AppEvent) : AppState := evs.foldl stepApp initState

end CRAS

namespace CRAS

/-! ## Helper lemmas -/

/-- The entry extracted by extractMin is in the frontier, and the
remaining entries are among the frontier entries. -/
theorem extractMin_sound :
    ∀ l m rest, extractMin l = some (m, rest) → m ∈ l ∧ ∀ x ∈ rest, x ∈ l := by
  intro l
  induction l with
  | nil => intro m rest h; simp [extractMin] at h
  | cons x xs ih =>
    intro m rest h
    rw [extractMin] at h
    cases hx : extractMin xs with
    | none =>
      rw [hx] at h
      simp only [Option.some.injEq, Prod.mk.injEq] at h
      obtain ⟨hm, hrest⟩ := h
      subst hm; subst hrest
      exact ⟨List.mem_cons_self x xs, by intro y hy; simp at hy⟩
    | some p =>
      obtain ⟨m', rest'⟩ := p
      rw [hx] at h
      dsimp only at h
      obtain ⟨hmem', hsub'⟩ := ih m' rest' hx
      by_cases hle : x.2 ≤ m'.2
      · rw [if_pos hle] at h
        simp only [Option.some.injEq, Prod.mk.injEq] at h
        obtain ⟨hm, hrest⟩ := h
        subst hm; subst hrest
        exact ⟨List.mem_cons_self x xs, fun y hy => List.mem_cons_of_mem x hy⟩
      · rw [if_neg hle] at h
        simp only [Option.some.injEq, Prod.mk.injEq] at h
        obtain ⟨hm, hrest⟩ := h
        subst hm; subst hrest
        refine ⟨List.mem_cons_of_mem x hmem', ?_⟩
        intro y hy
        rcases List.mem_cons.mp hy with hy | hy
        · subst hy; exact List.mem_cons_self y xs
        · exact List.mem_cons_of_mem x (hsub' y hy)

/-- Any property of worklist entries that holds of the initial entries and
is preserved when expanding a radius-respecting outgoing edge holds of
every entry of the traversal result. -/
theorem traverseAux_sound (g : Graph) (R : ℚ) (P : ℕ × ℚ → Prop)
    (hstep : ∀ p, P p → ∀ e, e ∈ g.edges → e.source = p.1 →
      p.2 + e.length_km ≤ R → P (e.target, p.2 + e.length_km)) :
    ∀ fuel visited frontier, (∀ p ∈ visited, P p) → (∀ p ∈ frontier, P p) →
      ∀ p ∈ traverseAux g R fuel visited frontier, P p := by
  intro fuel
  induction fuel with
  | zero => intro visited frontier hv _ p hp; exact hv p hp
  | succ n ih =>
    intro visited frontier hv hf p hp
    rw [traverseAux] at hp
    cases hx : extractMin frontier with
    | none => rw [hx] at hp; exact hv p hp
    | some q =>
      obtain ⟨entry, rest⟩ := q
      rw [hx] at hp
      dsimp only at hp
      obtain ⟨hentry, hrest⟩ := extractMin_sound frontier entry rest hx
      by_cases hvis : visited.any (fun q => q.1 == entry.1)
      · rw [if_pos hvis] at hp
        exact ih visited rest hv (fun q hq => hf q (hrest q hq)) p hp
      · rw [if_neg hvis] at hp
        refine ih (entry :: visited) _ ?_ ?_ p hp
        · intro q hq
          rcases List.mem_cons.mp hq with hq | hq
          · subst hq; exact hf q hentry
          · exact hv q hq
        · intro q hq
          rcases List.mem_append.mp hq with hq | hq
          · exact hf q (hrest q hq)
          · obtain ⟨e, he, heq⟩ := List.mem_filterMap.mp hq
            obtain ⟨hein, hesrc⟩ := List.mem_filter.mp he
            have hsrc : e.source = entry.1 := by
              simpa using hesrc
            by_cases hR : entry.2 + e.length_km ≤ R
            · rw [if_pos hR] at heq
              cases heq
              exact hstep entry (hf entry hentry) e hein hsrc hR
            · rw [if_neg hR] at heq
              exact absurd heq (by simp)

/-- The boolean record comparison spelt out: tier first, then descending
concentration, then endpoint id. -/
theorem recLE_iff (a b : RiskRecord) :
    recLE a b = true ↔
      (tierRank a.risk_level < tierRank b.risk_level ∨
        (tierRank a.risk_level = tierRank b.risk_level ∧
          (b.concentration_pct < a.concentration_pct ∨
            (a.concentration_pct = b.concentration_pct ∧
              a.endpoint_id ≤ b.endpoint_id)))) := by
  simp only [recLE, decide_eq_true_eq, recKey, Prod.Lex.le_iff, neg_lt_neg_iff, neg_inj]

/-- recLE is transitive. -/
theorem recLE_trans (a b c : RiskRecord) (hab : recLE a b) (hbc : recLE b c) :
    recLE a c = true := by
  simp only [recLE, decide_eq_true_eq] at hab hbc ⊢
  exact le_trans hab hbc

/-- recLE is total. -/
theorem recLE_total (a b : RiskRecord) : recLE a b || recLE b a := by
  simpa [recLE, Bool.or_eq_true, decide_eq_true_eq] using le_total (recKey a) (recKey b)

/-- The ranked list is a permutation of its input. -/
theorem rankRecords_perm (l : List RiskRecord) : List.Perm (rankRecords l) l :=
  List.mergeSort_perm l recLE

/-- The ranked list is sorted by the record sort key. -/
theorem rankRecords_sorted_keys (l : List RiskRecord) :
    (rankRecords l).Pairwise (fun a b => recKey a ≤ recKey b) := by
  have h := List.sorted_mergeSort recLE_trans recLE_total l
  exact h.imp (fun hab => by simpa [recLE, decide_eq_true_eq] using hab)

/-- The key comparison spelt out as the spec's ordering. -/
theorem recKey_le_iff (a b : RiskRecord) :
    recKey a ≤ recKey b ↔
      (tierRank a.risk_level < tierRank b.risk_level ∨
        (tierRank a.risk_level = tierRank b.risk_level ∧
          (b.concentration_pct < a.concentration_pct ∨
            (a.concentration_pct = b.concentration_pct ∧
              a.endpoint_id ≤ b.endpoint_id)))) := by
  have := recLE_iff a b
  simpa only [recLE, decide_eq_true_eq] using this

/-- Two sorted permutations with no duplicate sort keys are equal. -/
theorem sorted_perm_nodup_eq :
    ∀ l₁ l₂ : List RiskRecord,
      l₁.Pairwise (fun a b => recKey a ≤ recKey b) →
      l₂.Pairwise (fun a b => recKey a ≤ recKey b) →
      List.Perm l₁ l₂ → (l₁.map recKey).Nodup → l₁ = l₂ := by
  intro l₁
  induction l₁ with
  | nil =>
    intro l₂ _ _ hperm _
    exact (List.Perm.nil_eq hperm).symm ▸ rfl
  | cons a t₁ ih =>
    intro l₂ h₁ h₂ hperm hnd
    cases l₂ with
    | nil => exact absurd hperm.symm (by simp)
    | cons b t₂ =>
      have hnd' : recKey a ∉ t₁.map recKey ∧ (t₁.map recKey).Nodup := by
        rw [List.map_cons, List.nodup_cons] at hnd
        exact hnd
      have hab : a = b := by
        by_contra hne
        have ha2 : a ∈ b :: t₂ := hperm.mem_iff.mp (List.mem_cons_self a t₁)
        have hb1 : b ∈ a :: t₁ := hperm.symm.mem_iff.mp (List.mem_cons_self b t₂)
        have hat₂ : a ∈ t₂ := by
          rcases List.mem_cons.mp ha2 with h | h
          · exact absurd h hne
          · exact h
        have hbt₁ : b ∈ t₁ := by
          rcases List.mem_cons.mp hb1 with h | h
          · exact absurd h.symm hne
          · exact h
        have hle1 : recKey a ≤ recKey b := (List.pairwise_cons.mp h₁).1 b hbt₁
        have hle2 : recKey b ≤ recKey a := (List.pairwise_cons.mp h₂).1 a hat₂
        have hkeq : recKey a = recKey b := le_antisymm hle1 hle2
        exact hnd'.1 (hkeq ▸ List.mem_map_of_mem recKey hbt₁)
      subst hab
      have htperm : List.Perm t₁ t₂ := hperm.cons_inv
      have := ih t₂ (List.pairwise_cons.mp h₁).2 (List.pairwise_cons.mp h₂).2 htperm hnd'.2
      rw [this]

end CRAS

namespace CRAS

/-! ## Claim theorems -/

/-- Claim C1: the decay model returns 100 * (1 - r) ^ d as a percentage,
equals exactly 100 at distance 0, and is strictly decreasing in distance,
for every dispersion rate r in the open interval (0,1) and distance d ≥ 0. -/
theorem concentration_at_decay (r : ℝ) (hr0 : 0 < r) (hr1 : r < 1) :
    concentration_at 0 r = 100 ∧
    (∀ d : ℝ, concentration_at d r = 100 * (1 - r) ^ d) ∧
    (∀ d₁ d₂ : ℝ, 0 ≤ d₁ → d₁ < d₂ → concentration_at d₂ r < concentration_at d₁ r) := by
  have hb0 : (0 : ℝ) < 1 - r := by linarith
  have hb1 : 1 - r < 1 := by linarith
  refine ⟨?_, fun d => rfl, ?_⟩
  · simp [concentration_at, Real.rpow_zero]
  · intro d₁ d₂ _ hlt
    have h := Real.rpow_lt_rpow_of_exponent_gt hb0 hb1 hlt
    have h100 : (0 : ℝ) < 100 := by norm_num
    have := (mul_lt_mul_left h100).mpr h
    simpa [concentration_at] using this

/-- Witness for C1 at r = 1/2: concentration is 100 at distance 0 and
strictly smaller at distance 1. -/
theorem concentration_at_decay_witness :
    concentration_at 0 (1 / 2) = 100 ∧
    concentration_at 1 (1 / 2) < concentration_at 0 (1 / 2) := by
  have h := concentration_at_decay (1 / 2) (by norm_num) (by norm_num)
  exact ⟨h.1, h.2.2 0 1 le_rfl one_pos⟩

/-- Claim C4: under the configured threshold ordering high > moderate > low,
classification compares concentration against the three thresholds with
closed-below-inclusive boundaries; a concentration exactly equal to the high
threshold is High (not Moderate), and below the low threshold the endpoint
gets no tier (it is absent from classified output). -/
theorem classify_inclusive_boundaries (t : Thresholds) (c : ℚ)
    (hhm : t.moderate < t.high) (hml : t.low < t.moderate) :
    (t.high ≤ c → classify c t = some RiskLevel.High) ∧
    (c < t.high → t.moderate ≤ c → classify c t = some RiskLevel.Moderate) ∧
    (c < t.moderate → t.low ≤ c → classify c t = some RiskLevel.Low) ∧
    (c < t.low → classify c t = none) ∧
    classify t.high t = some RiskLevel.High := by
  refine ⟨?_, ?_, ?_, ?_, ?_⟩
  · intro h
    simp [classify, h]
  · intro h1 h2
    rw [classify, if_neg (not_le.mpr h1), if_pos h2]
  · intro h1 h2
    rw [classify, if_neg (not_le.mpr (lt_trans h1 hhm)), if_neg (not_le.mpr h1), if_pos h2]
  · intro h
    rw [classify, if_neg (not_le.mpr (lt_trans (lt_trans h hml) hhm)),
      if_neg (not_le.mpr (lt_trans h hml)), if_neg (not_le.mpr h)]
  · simp [classify]

/-- Claim C2: the downstream traversal expands only along outgoing edges,
so every node appearing in the traversal result is reachable from the
start node by a flow-following path; a node reachable only against edge
direction never appears. -/
theorem traverse_downstream_only (g : Graph) (start : ℕ) (R : ℚ) (n : ℕ) (d : ℚ)
    (hmem : (n, d) ∈ traverse g start R) : ∃ δ, PathFrom g start n δ := by
  have h := traverseAux_sound g R (fun p => ∃ δ, PathFrom g start p.1 δ)
    (fun p hp e he hs _ => by
      obtain ⟨δ, hδ⟩ := hp
      exact ⟨δ + e.length_km, PathFrom.step e hδ he hs⟩)
    ((g.edges.length + 2) * (g.edges.length + 2)) [] [(start, 0)]
    (by intro p hp; simp at hp)
    (by
      intro p hp
      have hps : p = (start, 0) := by simpa using hp
      subst hps
      exact ⟨0, PathFrom.refl start⟩)
    (n, d) hmem
  exact h

/-- Witness for C2 on the one-edge graph 1 → 2 of length 3 with radius 5:
node 2 appears at distance 3 and is downstream-reachable from node 1. -/
theorem traverse_downstream_only_witness :
    ((2 : ℕ), (3 : ℚ)) ∈ traverse (Graph.mk [Edge.mk 1 2 3]) 1 5 ∧
    ∃ δ, PathFrom (Graph.mk [Edge.mk 1 2 3]) 1 2 δ := by
  have hmem : ((2 : ℕ), (3 : ℚ)) ∈ traverse (Graph.mk [Edge.mk 1 2 3]) 1 5 := by
    norm_num [CRAS.traverse, CRAS.traverseAux, CRAS.extractMin, CRAS.outgoing]
  exact ⟨hmem, traverse_downstream_only (Graph.mk [Edge.mk 1 2 3]) 1 5 2 3 hmem⟩

/-- Claim C3: for a nonnegative radius R, every node in the traversal
result carries a cumulative downstream distance at most R witnessed by an
actual flow-following path of exactly that length, and a node all of whose
downstream paths from the start are longer than R never appears in the
result at all. -/
theorem traverse_radius_bounded (g : Graph) (start : ℕ) (R : ℚ) (hR : 0 ≤ R) :
    (∀ n d, (n, d) ∈ traverse g start R → d ≤ R ∧ PathFrom g start n d) ∧
    (∀ n, (∀ δ, PathFrom g start n δ → R < δ) → ∀ d, (n, d) ∉ traverse g start R) := by
  have main : ∀ p ∈ traverse g start R, p.2 ≤ R ∧ PathFrom g start p.1 p.2 := by
    refine traverseAux_sound g R (fun p => p.2 ≤ R ∧ PathFrom g start p.1 p.2)
      (fun p hp e he hs hbound => ⟨hbound, PathFrom.step e hp.2 he hs⟩)
      ((g.edges.length + 2) * (g.edges.length + 2)) [] [(start, 0)]
      (by intro p hp; simp at hp) ?_
    intro p hp
    have hps : p = (start, 0) := by simpa using hp
    subst hps
    exact ⟨hR, PathFrom.refl start⟩
  constructor
  · intro n d h
    exact main (n, d) h
  · intro n hall d hmem
    obtain ⟨h1, h2⟩ := main (n, d) hmem
    exact absurd h1 (not_le.mpr (hall d h2))

/-- Witness for C3 on the one-edge graph 1 → 2 of length 3 with radius 5:
node 2 appears at distance 3 ≤ 5 along an actual downstream path. -/
theorem traverse_radius_bounded_witness :
    (3 : ℚ) ≤ 5 ∧ PathFrom (Graph.mk [Edge.mk 1 2 3]) 1 2 3 := by
  have hmem : ((2 : ℕ), (3 : ℚ)) ∈ traverse (Graph.mk [Edge.mk 1 2 3]) 1 5 := by
    norm_num [CRAS.traverse, CRAS.traverseAux, CRAS.extractMin, CRAS.outgoing]
  exact (traverse_radius_bounded (Graph.mk [Edge.mk 1 2 3]) 1 5 (by norm_num)).1 2 3 hmem

/-- Claim C5: the final ordering is by risk tier (High, Moderate, Low),
within a tier by descending concentration, ties broken by endpoint id;
with distinct sort keys the ranked output is the same for every
permutation of the input records, so the order is a deterministic
function of the records. -/
theorem rankRecords_ordering (l : List RiskRecord) :
    List.Perm (rankRecords l) l ∧
    (rankRecords l).Pairwise (fun a b =>
      tierRank a.risk_level < tierRank b.risk_level ∨
        (tierRank a.risk_level = tierRank b.risk_level ∧
          (b.concentration_pct < a.concentration_pct ∨
            (a.concentration_pct = b.concentration_pct ∧
              a.endpoint_id ≤ b.endpoint_id)))) ∧
    (∀ l₂ : List RiskRecord, List.Perm l l₂ → (l.map recKey).Nodup →
      rankRecords l₂ = rankRecords l) := by
  refine ⟨rankRecords_perm l, ?_, ?_⟩
  · exact (rankRecords_sorted_keys l).imp (fun hab => (recKey_le_iff _ _).mp hab)
  · intro l₂ hperm hnd
    have hk₂ : (l₂.map recKey).Nodup := ((hperm.map recKey).nodup_iff).mp hnd
    have hkr : ((rankRecords l₂).map recKey).Nodup :=
      (((rankRecords_perm l₂).map recKey).nodup_iff).mpr hk₂
    exact sorted_perm_nodup_eq (rankRecords l₂) (rankRecords l)
      (rankRecords_sorted_keys l₂) (rankRecords_sorted_keys l)
      ((rankRecords_perm l₂).trans (hperm.symm.trans (rankRecords_perm l).symm))
      hkr

/-- Witness for C5: ranking the swapped two-record list yields the same
output as ranking the original (determinism under permutation), applied
at a High record (id 1) and a Low record (id 2). -/
theorem rankRecords_ordering_witness :
    rankRecords [RiskRecord.mk 2 EndpointType.school RiskLevel.Low 5 3,
      RiskRecord.mk 1 EndpointType.hospital RiskLevel.High 90 1] =
    rankRecords [RiskRecord.mk 1 EndpointType.hospital RiskLevel.High 90 1,
      RiskRecord.mk 2 EndpointType.school RiskLevel.Low 5 3] := by
  refine (rankRecords_ordering
    [RiskRecord.mk 1 EndpointType.hospital RiskLevel.High 90 1,
      RiskRecord.mk 2 EndpointType.school RiskLevel.Low 5 3]).2.2
    [RiskRecord.mk 2 EndpointType.school RiskLevel.Low 5 3,
      RiskRecord.mk 1 EndpointType.hospital RiskLevel.High 90 1] ?_ ?_
  · exact List.Perm.swap _ _ _
  · simp [recKey, tierRank]

/-- Witness for C4 at thresholds 10/5/1: the boundary value 10 is High,
7 is Moderate, 2 is Low, and 1/2 is dropped. -/
theorem classify_inclusive_boundaries_witness :
    classify 10 (Thresholds.mk 10 5 1) = some RiskLevel.High ∧
    classify 7 (Thresholds.mk 10 5 1) = some RiskLevel.Moderate ∧
    classify 2 (Thresholds.mk 10 5 1) = some RiskLevel.Low ∧
    classify (1 / 2) (Thresholds.mk 10 5 1) = none := by
  refine ⟨?_, ?_, ?_, ?_⟩
  · exact (classify_inclusive_boundaries (Thresholds.mk 10 5 1) 10
      (by norm_num) (by norm_num)).1 (by norm_num)
  · exact (classify_inclusive_boundaries (Thresholds.mk 10 5 1) 7
      (by norm_num) (by norm_num)).2.1 (by norm_num) (by norm_num)
  · exact (classify_inclusive_boundaries (Thresholds.mk 10 5 1) 2
      (by norm_num) (by norm_num)).2.2.1 (by norm_num) (by norm_num)
  · exact (classify_inclusive_boundaries (Thresholds.mk 10 5 1) (1 / 2)
      (by norm_num) (by norm_num)).2.2.2.1 (by norm_num)

/-- The head of a mergeSort-sorted list (under a transitive and total
boolean comparison) is an element that compares at or before every
element of the input list. -/
theorem mergeSort_head_best (le : PanelRecord → PanelRecord → Bool)
    (htrans : ∀ a b c, le a b → le b c → le a c)
    (htotal : ∀ a b, le a b || le b a)
    (l : List PanelRecord) (r : PanelRecord)
    (h : (l.mergeSort le).head? = some r) :
    r ∈ l ∧ ∀ q ∈ l, q = r ∨ le r q = true := by
  obtain ⟨t, ht⟩ := List.head?_eq_some_iff.mp h
  have hsorted := List.sorted_mergeSort htrans htotal l
  rw [ht] at hsorted
  have hmem : r ∈ l := List.mem_mergeSort.mp (by
    rw [ht]
    exact List.mem_cons_self r t)
  refine ⟨hmem, ?_⟩
  intro q hq
  have hq' : q ∈ r :: t := by
    rw [← ht]
    exact List.mem_mergeSort.mpr hq
  rcases List.mem_cons.mp hq' with h | h
  · exact Or.inl h
  · exact Or.inr ((List.pairwise_cons.mp hsorted).1 q h)

/-- Claim C7: a configuration violating the threshold ordering
high > moderate > low, or with a dispersion rate outside the open
interval (0,1), or with a nonpositive analysis radius, makes the
analyze operation fail with the invalid-configuration error; no result
list is ever produced for it. -/
theorem analyze_rejects_invalid_config (conc : ℚ → ℚ) (cfg : Config) (g : Graph)
    (origin : LatLng) (start : ℕ) (endpoints : List Endpoint)
    (hbad : ¬ (cfg.thresholds.low < cfg.thresholds.moderate ∧
        cfg.thresholds.moderate < cfg.thresholds.high) ∨
      ¬ (0 < cfg.dispersion_rate ∧ cfg.dispersion_rate < 1) ∨
      cfg.analysis_radius_km ≤ 0) :
    analyze conc cfg g origin start endpoints =
      Except.error AnalysisError.invalidConfiguration ∧
    ∀ rs, analyze conc cfg g origin start endpoints ≠ Except.ok rs := by
  have hvc : ¬ validConfig cfg = true := by
    simp only [validConfig, Bool.and_eq_true, decide_eq_true_eq]
    rintro ⟨⟨⟨⟨⟨h1, h2⟩, h3⟩, h4⟩, h5⟩, h6⟩
    rcases hbad with h | h | h
    · exact h ⟨h5, h4⟩
    · exact h ⟨h1, h2⟩
    · exact absurd h3 (not_lt.mpr h)
  constructor
  · rw [analyze, if_neg hvc]
  · intro rs h
    rw [analyze, if_neg hvc] at h
    exact Except.noConfusion h

/-- Witness for C7: thresholds 5/10/1 violate moderate < high, so the
analysis fails with the invalid-configuration error. -/
theorem analyze_rejects_invalid_config_witness :
    analyze (fun d => d) (Config.mk (1 / 2) 10 (Thresholds.mk 5 10 1)) (Graph.mk [])
      (LatLng.mk 0 0) 0 [] = Except.error AnalysisError.invalidConfiguration := by
  exact (analyze_rejects_invalid_config (fun d => d)
    (Config.mk (1 / 2) 10 (Thresholds.mk 5 10 1)) (Graph.mk []) (LatLng.mk 0 0) 0 []
    (Or.inl (by norm_num))).1

/-- Claim C6: an endpoint located at the exact coordinate of the
contamination origin never appears in the returned risk-record list
(given the data-model invariant that endpoint ids are unique); moreover
the map layer's self-match guard fires for it whenever the origin is
among the contamination points, so it is not rendered as a risk marker
either. -/
theorem analyze_excludes_origin_endpoint (conc : ℚ → ℚ) (cfg : Config) (g : Graph)
    (origin : LatLng) (start : ℕ) (endpoints : List Endpoint) (e : Endpoint)
    (he : e ∈ endpoints) (hco : e.coord = origin)
    (hids : (endpoints.map (fun x => x.endpoint_id)).Nodup)
    (rs : List RiskRecord)
    (hok : analyze conc cfg g origin start endpoints = Except.ok rs)
    (r : RiskRecord) (hr : r ∈ rs) :
    r.endpoint_id ≠ e.endpoint_id ∧
    ∀ cps : List LatLng, origin ∈ cps →
      isAtContaminationPoint cps e.coord.lat e.coord.lng = true := by
  constructor
  · have hrs : riskResults conc cfg g origin start endpoints = rs := by
      rw [analyze] at hok
      by_cases hv : validConfig cfg
      · rw [if_pos hv] at hok
        simpa using hok
      · rw [if_neg hv] at hok
        exact Except.noConfusion hok
    subst hrs
    rw [riskResults, rankRecords] at hr
    have hr' := List.mem_mergeSort.mp hr
    obtain ⟨p, hp, hpr⟩ := List.mem_filterMap.mp hr'
    obtain ⟨lvl, hlv, hrec⟩ := Option.map_eq_some'.mp hpr
    obtain ⟨e', he', heq⟩ := List.mem_filterMap.mp hp
    by_cases hcoe : e'.coord = origin
    · rw [if_pos hcoe] at heq
      exact Option.noConfusion heq
    · rw [if_neg hcoe] at heq
      obtain ⟨d, hdd, hpd⟩ := Option.map_eq_some'.mp heq
      intro hcontra
      have hre' : r.endpoint_id = e'.endpoint_id := by
        rw [← hrec, ← hpd]
      have hee : e' = e := List.inj_on_of_nodup_map hids he' he (by
        rw [← hre', hcontra])
      exact hcoe (hee ▸ hco)
  · intro cps hcps
    rw [isAtContaminationPoint, List.any_eq_true]
    refine ⟨origin, hcps, ?_⟩
    rw [hco]
    norm_num

/-- Witness for C6: on a two-endpoint instance with endpoint 1 sitting at
the origin, the analysis returns only the record for endpoint 2, whose id
differs from 1. -/
theorem analyze_excludes_origin_endpoint_witness :
    analyze (fun _ => (90 : ℚ)) (Config.mk (1 / 2) 5 (Thresholds.mk 10 5 1))
      (Graph.mk [Edge.mk 1 2 1]) (LatLng.mk 0 0) 1
      [Endpoint.mk 1 EndpointType.hospital 1 (LatLng.mk 0 0),
        Endpoint.mk 2 EndpointType.school 2 (LatLng.mk 1 1)] =
      Except.ok [RiskRecord.mk 2 EndpointType.school RiskLevel.High 90 1] ∧
    (RiskRecord.mk 2 EndpointType.school RiskLevel.High 90 1).endpoint_id ≠ 1 := by
  have hok : analyze (fun _ => (90 : ℚ)) (Config.mk (1 / 2) 5 (Thresholds.mk 10 5 1))
      (Graph.mk [Edge.mk 1 2 1]) (LatLng.mk 0 0) 1
      [Endpoint.mk 1 EndpointType.hospital 1 (LatLng.mk 0 0),
        Endpoint.mk 2 EndpointType.school 2 (LatLng.mk 1 1)] =
      Except.ok [RiskRecord.mk 2 EndpointType.school RiskLevel.High 90 1] := by
    norm_num [CRAS.analyze, CRAS.validConfig, CRAS.riskResults, CRAS.traverse,
      CRAS.traverseAux, CRAS.extractMin, CRAS.outgoing, CRAS.resolve, CRAS.lookupDist,
      CRAS.toRecords, CRAS.classify, CRAS.rankRecords, List.mergeSort, List.filterMap_cons,
      List.find?, LatLng.mk.injEq, Function.comp]
  refine ⟨hok, (analyze_excludes_origin_endpoint (fun _ => (90 : ℚ))
    (Config.mk (1 / 2) 5 (Thresholds.mk 10 5 1)) (Graph.mk [Edge.mk 1 2 1])
    (LatLng.mk 0 0) 1
    [Endpoint.mk 1 EndpointType.hospital 1 (LatLng.mk 0 0),
      Endpoint.mk 2 EndpointType.school 2 (LatLng.mk 1 1)]
    (Endpoint.mk 1 EndpointType.hospital 1 (LatLng.mk 0 0))
    (List.mem_cons_self _ _) rfl (by norm_num)
    [RiskRecord.mk 2 EndpointType.school RiskLevel.High 90 1] hok
    (RiskRecord.mk 2 EndpointType.school RiskLevel.High 90 1)
    (List.mem_cons_self _ _)).1⟩

/-- Claim C9: the most-critical record exists iff some High-tier record
exists; under the concentration model it is a High-tier record of maximal
concentration, and under the arrival-time model a High-tier record of
minimal arrival time. -/
theorem getMostCritical_spec (results : List PanelRecord) :
    (getMostCritical results = none ↔ ∀ r ∈ results, ¬ r.risk_level = "High") ∧
    (∀ r, getMostCritical results = some r →
      r ∈ results ∧ r.risk_level = "High" ∧
      ∀ q ∈ results, q.risk_level = "High" →
        q.concentration.getD 0 ≤ r.concentration.getD 0) ∧
    (∀ r, getMostCriticalArrival results = some r →
      r ∈ results ∧ r.risk_level = "High" ∧
      ∀ q ∈ results, q.risk_level = "High" →
        r.arrival_hours.getD 0 ≤ q.arrival_hours.getD 0) := by
  have hfilterMem : ∀ r, r ∈ results.filter (fun q => q.risk_level == "High") ↔
      (r ∈ results ∧ r.risk_level = "High") := by
    intro r
    rw [List.mem_filter]
    simp [beq_iff_eq]
  refine ⟨?_, ?_, ?_⟩
  · rw [getMostCritical]
    by_cases hemp : (results.filter (fun q => q.risk_level == "High")).length == 0
    · rw [if_pos hemp]
      have hnil : results.filter (fun q => q.risk_level == "High") = [] :=
        List.length_eq_zero.mp (Nat.beq_eq_true_eq _ _ ▸ hemp)
      constructor
      · intro _ r hr hhigh
        have : r ∈ results.filter (fun q => q.risk_level == "High") :=
          (hfilterMem r).mpr ⟨hr, hhigh⟩
        rw [hnil] at this
        exact absurd this (List.not_mem_nil r)
      · intro _
        rfl
    · rw [if_neg hemp]
      have hne : results.filter (fun q => q.risk_level == "High") ≠ [] := by
        intro hcon
        rw [hcon] at hemp
        exact hemp rfl
      obtain ⟨a, ha⟩ := List.exists_mem_of_ne_nil _ hne
      have hahigh := (hfilterMem a).mp ha
      constructor
      · intro hnone
        have hmsnil := List.head?_eq_none_iff.mp hnone
        have : a ∈ ([] : List PanelRecord) := by
          rw [← hmsnil]
          exact List.mem_mergeSort.mpr ha
        exact absurd this (List.not_mem_nil a)
      · intro hno
        exact absurd hahigh.2 (hno a hahigh.1)
  · intro r hsome
    rw [getMostCritical] at hsome
    by_cases hemp : (results.filter (fun q => q.risk_level == "High")).length == 0
    · rw [if_pos hemp] at hsome
      exact Option.noConfusion hsome
    · rw [if_neg hemp] at hsome
      have hbest := mergeSort_head_best
        (fun a b => decide (b.concentration.getD 0 ≤ a.concentration.getD 0))
        (fun a b c hab hbc => by
          simp only [decide_eq_true_eq] at hab hbc ⊢
          exact le_trans hbc hab)
        (fun a b => by
          simpa [Bool.or_eq_true, decide_eq_true_eq] using
            le_total (b.concentration.getD 0) (a.concentration.getD 0))
        (results.filter (fun q => q.risk_level == "High")) r hsome
      obtain ⟨hrmem, hmax⟩ := hbest
      have hrh := (hfilterMem r).mp hrmem
      refine ⟨hrh.1, hrh.2, ?_⟩
      intro q hq hqhigh
      rcases hmax q ((hfilterMem q).mpr ⟨hq, hqhigh⟩) with h | h
      · rw [h]
      · simpa [decide_eq_true_eq] using h
  · intro r hsome
    rw [getMostCriticalArrival] at hsome
    by_cases hemp : (results.filter (fun q => q.risk_level == "High")).length == 0
    · rw [if_pos hemp] at hsome
      exact Option.noConfusion hsome
    · rw [if_neg hemp] at hsome
      have hbest := mergeSort_head_best
        (fun a b => decide (a.arrival_hours.getD 0 ≤ b.arrival_hours.getD 0))
        (fun a b c hab hbc => by
          simp only [decide_eq_true_eq] at hab hbc ⊢
          exact le_trans hab hbc)
        (fun a b => by
          simpa [Bool.or_eq_true, decide_eq_true_eq] using
            le_total (a.arrival_hours.getD 0) (b.arrival_hours.getD 0))
        (results.filter (fun q => q.risk_level == "High")) r hsome
      obtain ⟨hrmem, hmax⟩ := hbest
      have hrh := (hfilterMem r).mp hrmem
      refine ⟨hrh.1, hrh.2, ?_⟩
      intro q hq hqhigh
      rcases hmax q ((hfilterMem q).mpr ⟨hq, hqhigh⟩) with h | h
      · rw [h]
      · simpa [decide_eq_true_eq] using h

/-- Witness for C9: on the singleton High-tier list, the most-critical
record is that record and it is High. -/
theorem getMostCritical_spec_witness :
    getMostCritical [PanelRecord.mk "E1" "hospital" "High" (some 90) none 1] =
      some (PanelRecord.mk "E1" "hospital" "High" (some 90) none 1) ∧
    (PanelRecord.mk "E1" "hospital" "High" (some 90) none 1).risk_level = "High" := by
  have hev : getMostCritical [PanelRecord.mk "E1" "hospital" "High" (some 90) none 1] =
      some (PanelRecord.mk "E1" "hospital" "High" (some 90) none 1) := by
    simp [getMostCritical, List.mergeSort]
  exact ⟨hev,
    ((getMostCritical_spec [PanelRecord.mk "E1" "hospital" "High" (some 90) none 1]).2.1
      (PanelRecord.mk "E1" "hospital" "High" (some 90) none 1) hev).2.1⟩

/-- Claim C8 fails on the code: a concentration-model record (with no
arrival_hours field) is interpreted under the concentration model by the
current results panel (its Concentration column and its most-critical
alert), yet the Excel export invoked from the very same panel reads the
arrival-time field of the same record and fails on its absence — the two
model interpretations are mixed within one analysis and one record. -/
theorem model_fields_mixed_at_export :
    concentrationCell (PanelRecord.mk "E1" "hospital" "High" (some 90) none 1) = some 90 ∧
    getMostCritical [PanelRecord.mk "E1" "hospital" "High" (some 90) none 1] =
      some (PanelRecord.mk "E1" "hospital" "High" (some 90) none 1) ∧
    exportArrivalCell (PanelRecord.mk "E1" "hospital" "High" (some 90) none 1) =
      Except.error "TypeError: arrival_hours is undefined" := by
  refine ⟨?_, ?_, rfl⟩
  · norm_num [concentrationCell]
  · simp [getMostCritical, List.mergeSort]

/-- Claim C10: adding a contamination point replaces the whole list with
the single new point, and after any sequence of UI events from the
initial state the contamination-point list holds at most one point. -/
theorem contamination_points_at_most_one (evs : List AppEvent) :
    (∀ s p, (handleContaminationAdd s p).contaminationPoints = [p]) ∧
    (runApp evs).contaminationPoints.length ≤ 1 := by
  refine ⟨fun s p => rfl, ?_⟩
  suffices h : ∀ s : AppState, s.contaminationPoints.length ≤ 1 →
      (evs.foldl stepApp s).contaminationPoints.length ≤ 1 by
    exact h initState (by simp [initState])
  induction evs with
  | nil =>
    intro s hs
    simpa using hs
  | cons e t ih =>
    intro s hs
    rw [List.foldl_cons]
    apply ih
    cases e with
    | contaminationAdd p => simp [stepApp, handleContaminationAdd]
    | analysisComplete rs => simpa [stepApp, handleAnalysisComplete] using hs
    | clearAnalysis => simp [stepApp, handleClearAnalysis]

end CRAS
